import Mathlib

/-!
Shallow embedding of `gw2-pathfinder`:
`src/backend/models.py` (the `Achievement` model) and
`src/backend/recommendations.py` (`RecommendationView.get`).

The catalog store is modelled as a `List Achievement` given in the store's
iteration order (the model declares `ordering = ['name']`, so by default this
list is name-ascending).  The remote progress API's response is a
`List ProgressRecord`; fields that the Python code reads with `dict.get` and a
default are modelled as `Option`s.  The network call itself is modelled as an
`Except`-valued input to the view.  An uncaught Python exception
(`ZeroDivisionError`, a failed fetch, unparseable JSON) is the `serverError`
outcome.
-/

instance {ε α : Type} [DecidableEq ε] [DecidableEq α] : DecidableEq (Except ε α) :=
  fun x y =>
    match x, y with
    | .ok a, .ok b =>
      if h : a = b then isTrue (by rw [h]) else isFalse (by simp [h])
    | .error a, .error b =>
      if h : a = b then isTrue (by rw [h]) else isFalse (by simp [h])
    | .ok _, .error _ => isFalse (by simp)
    | .error _, .ok _ => isFalse (by simp)

namespace GW2

/-- `Achievement` model from `src/backend/models.py` (fields used by the view,
plus the projected display fields). -/
structure Achievement where
  gw2_id : Nat
  name : String
  description : String
  requirement : String
  category_name : String
  group_name : String
  flags : List String
  is_legendary : Bool
  community_priority : Bool
deriving Repr, DecidableEq

/-- One element of the JSON list returned by
`GET /v2/account/achievements`: `{id, current, max, done, bits}`.
`current`, `max` and `done` may be absent from the JSON object
(the Python code reads them with `dict.get`), hence `Option`. -/
structure ProgressRecord where
  id : Nat
  current : Option Nat
  max : Option Nat
  done : Option Bool
deriving Repr, DecidableEq

/-- Python truthiness of `a.get('done')`: a missing key is `None`, which is
falsy. -/
def isDone (r : ProgressRecord) : Bool := r.done.getD false

/-- `completed_ids = [a['id'] for a in user_achievements if a.get('done')]`. -/
def completedIds (user : List ProgressRecord) : List Nat :=
  (user.filter (fun a => isDone a)).map (fun a => a.id)

/-- One update of the Python dict
`affinity_map[cat] = affinity_map.get(cat, 0) + 1`: an existing key is
updated in place, a new key is appended. -/
def bump (m : List (String × Nat)) (k : String) : List (String × Nat) :=
  match m with
  | [] => [(k, 1)]
  | (k', v) :: rest => if k' = k then (k', v + 1) :: rest else (k', v) :: bump rest k

/-- Python `dict.get(k, d)` on the association-list model of a dict
(keys are unique, so first match is the match). -/
def lookupD : List (String × Nat) → String → Nat → Nat
  | [], _, d => d
  | (k', v) :: rest, k, d => if k' = k then v else lookupD rest k d

/-- `history = Achievement.objects.filter(gw2_id__in=completed_ids)`:
the catalog entries whose id is in the completed set, in store order. -/
def history (catalog : List Achievement) (completed : List Nat) : List Achievement :=
  catalog.filter (fun a => completed.contains a.gw2_id)

/-- The affinity map: `for ach in history: affinity_map[ach.category_name] += 1`
starting from the empty dict. -/
def affinityMap (catalog : List Achievement) (completed : List Nat) : List (String × Nat) :=
  (history catalog completed).foldl (fun m a => bump m a.category_name) []

/-- `in_progress = {a['id']: a for a in user_achievements if not a.get('done')}`
followed by `in_progress.get(gw2_id)`.  A dict comprehension keeps the LAST
record for a duplicated id, hence the lookup on the reversed list. -/
def inProgress (user : List ProgressRecord) (id : Nat) : Option ProgressRecord :=
  ((user.filter (fun a => !isDone a)).reverse).find? (fun a => a.id == id)

/-- `potential = Achievement.objects.exclude(gw2_id__in=completed_ids)`,
in store order. -/
def potential (catalog : List Achievement) (completed : List Nat) : List Achievement :=
  catalog.filter (fun a => !completed.contains a.gw2_id)

/-- `score = affinity_map.get(ach.category_name, 0)`;
`if ach.community_priority: score += 10`. -/
def score (aff : List (String × Nat)) (a : Achievement) : Nat :=
  let base := lookupD aff a.category_name 0
  if a.community_priority then base + 10 else base

/-- Python substring test `pat in s` on strings. -/
def hasSub (s pat : String) : Bool := decide (pat.toList <:+: s.toList)

/-- The `ach_data` projection `{id, name, requirement, category, progress, max}`. -/
structure RecEntry where
  id : Nat
  name : String
  requirement : String
  category : String
  progress : Nat
  max : Nat
deriving Repr, DecidableEq

/-- `"progress": progress_obj.get('current', 0) if progress_obj else 0`,
`"max": progress_obj.get('max', 0) if progress_obj else 1`. -/
def achData (a : Achievement) (po : Option ProgressRecord) : RecEntry :=
  { id := a.gw2_id
    name := a.name
    requirement := a.requirement
    category := a.category_name
    progress := match po with | some p => p.current.getD 0 | none => 0
    max := match po with | some p => p.max.getD 0 | none => 1 }

/-- The denominator `progress_obj.get('max', 1)` of the ratio check. -/
def ratioDen (p : ProgressRecord) : Nat := p.max.getD 1

/-- The numerator `progress_obj.get('current', 0)` of the ratio check. -/
def ratioNum (p : ProgressRecord) : Nat := p.current.getD 0

/-- `progress_obj and (progress_obj.get('current', 0) / progress_obj.get('max', 1)) > 0.7`.
The division is modelled exactly, as the rational `mkRat current max` (for a
nonzero denominator `mkRat c m = (c : ℚ) / m`, see `ratioCheck_eq_true_iff`).
A zero denominator raises `ZeroDivisionError`, modelled as `Except.error`. -/
def ratioCheck (po : Option ProgressRecord) : Except Unit Bool :=
  match po with
  | none => .ok false
  | some p =>
    if ratioDen p = 0 then .error ()
    else .ok (decide (mkRat (ratioNum p) (ratioDen p) > mkRat 7 10))

/-- The five output lists of the `recommendations` dict. -/
structure Buckets where
  nearly_complete : List RecEntry
  legendary : List RecEntry
  pvp : List RecEntry
  story : List RecEntry
  exploration : List RecEntry
deriving Repr, DecidableEq

def emptyBuckets : Buckets :=
  { nearly_complete := [], legendary := [], pvp := [], story := [], exploration := [] }

/-- `if progress_obj and ratio > 0.7: recommendations["nearly_complete"].append(ach_data)`. -/
def nearlyStep (nearly : Bool) (d : RecEntry) (b : Buckets) : Buckets :=
  if nearly then { b with nearly_complete := b.nearly_complete ++ [d] } else b

/-- The `if ach.is_legendary / elif "Pvp" in ach.flags / elif "Story" in
ach.group_name / elif "Explorer" in ach.category_name` chain. -/
def chainStep (a : Achievement) (d : RecEntry) (b : Buckets) : Buckets :=
  if a.is_legendary then { b with legendary := b.legendary ++ [d] }
  else if a.flags.contains "Pvp" then { b with pvp := b.pvp ++ [d] }
  else if hasSub a.group_name "Story" then { b with story := b.story ++ [d] }
  else if hasSub a.category_name "Explorer" then { b with exploration := b.exploration ++ [d] }
  else b

/-- One iteration of `for ach in potential`.  The loop body computes a
`score` (bound here to `_s`) that no later statement reads. -/
def stepEntry (aff : List (String × Nat)) (inprog : Nat → Option ProgressRecord)
    (b : Buckets) (a : Achievement) : Except Unit Buckets :=
  let _s := score aff a
  match ratioCheck (inprog a.gw2_id) with
  | .error e => .error e
  | .ok nearly =>
    .ok (chainStep a (achData a (inprog a.gw2_id))
          (nearlyStep nearly (achData a (inprog a.gw2_id)) b))

/-- The whole `for ach in potential` loop; a raised `ZeroDivisionError`
aborts the request. -/
def runBuckets (aff : List (String × Nat)) (inprog : Nat → Option ProgressRecord)
    (b : Buckets) : List Achievement → Except Unit Buckets
  | [] => .ok b
  | a :: rest =>
    match stepEntry aff inprog b a with
    | .error e => .error e
    | .ok b' => runBuckets aff inprog b' rest

/-- The three possible outcomes of `RecommendationView.get`:
a 400 response, a 200 response with the buckets, or an uncaught exception. -/
inductive ViewResult where
  | badRequest (msg : String)
  | ok (buckets : Buckets)
  | serverError
deriving Repr, DecidableEq

/-- Steps 2 and 3 of the view, once the progress snapshot has been fetched
and parsed: build `completed_ids`, `affinity_map`, `in_progress` and
`potential`, run the loop, and answer 200 with the buckets (an uncaught
`ZeroDivisionError` from the loop is `serverError`). -/
def viewCore (user : List ProgressRecord) (catalog : List Achievement) : ViewResult :=
  match
    runBuckets (affinityMap catalog (completedIds user)) (inProgress user)
      emptyBuckets (potential catalog (completedIds user)) with
  | .error _ => .serverError
  | .ok b => .ok b

/-- `RecommendationView.get`.  `api_key` is
`request.query_params.get('api_key')` (missing query parameter = `none`); the
Python `if not api_key` is also true for the empty string.  `fetch` is the
outcome of the `requests.get(...).json()` call on the progress API. -/
def recommendationView (api_key : Option String)
    (fetch : Except Unit (List ProgressRecord))
    (catalog : List Achievement) : ViewResult :=
  if api_key.getD "" = "" then .badRequest "API Key required"
  else
    match fetch with
    | .error _ => .serverError
    | .ok user => viewCore user catalog

/-- The predicate under which the loop appends to `nearly_complete`. -/
def nearlyPred (inprog : Nat → Option ProgressRecord) (a : Achievement) : Bool :=
  match ratioCheck (inprog a.gw2_id) with
  | .ok t => t
  | .error _ => false

/-- The predicate under which the loop appends to `legendary`. -/
def legPred (a : Achievement) : Bool := a.is_legendary

/-- The predicate under which the loop appends to `pvp`. -/
def pvpPred (a : Achievement) : Bool := !a.is_legendary && a.flags.contains "Pvp"

/-- The predicate under which the loop appends to `story`. -/
def storyPred (a : Achievement) : Bool :=
  !a.is_legendary && !a.flags.contains "Pvp" && hasSub a.group_name "Story"

/-- The predicate under which the loop appends to `exploration`. -/
def explPred (a : Achievement) : Bool :=
  !a.is_legendary && !a.flags.contains "Pvp" && !hasSub a.group_name "Story" &&
    hasSub a.category_name "Explorer"

/-- The projection applied to each scanned entry. -/
def proj (inprog : Nat → Option ProgressRecord) (a : Achievement) : RecEntry :=
  achData a (inprog a.gw2_id)

/-! ### Concrete sample data (progress records, catalog entries, expected
outputs) used to instantiate the theorems below. -/

/-- A not-done record at 8/10 progress. -/
def recPvp : ProgressRecord := { id := 3, current := some 8, max := some 10, done := some false }

/-- A non-legendary PvP-flagged catalog entry matching `recPvp`. -/
def achPvp : Achievement :=
  { gw2_id := 3, name := "Zeta", description := "", requirement := "", category_name := "Slayer",
    group_name := "", flags := ["Pvp"], is_legendary := false, community_priority := false }

/-- The projection of `achPvp` with `recPvp`'s progress. -/
def entryPvp : RecEntry :=
  { id := 3, name := "Zeta", requirement := "", category := "Slayer", progress := 8, max := 10 }

/-- The buckets produced scanning `[achPvp]` against `[recPvp]`. -/
def bucketsPvp : Buckets :=
  { nearly_complete := [entryPvp], legendary := [], pvp := [entryPvp], story := [],
    exploration := [] }

/-- A completed (done) record. -/
def recDone : ProgressRecord := { id := 4, current := some 1, max := some 1, done := some true }

/-- A catalog entry matching `recDone`. -/
def achDone : Achievement :=
  { gw2_id := 4, name := "Alpha", description := "", requirement := "", category_name := "Slayer",
    group_name := "", flags := [], is_legendary := false, community_priority := false }

/-- A genuine not-done record carrying an explicit `max = 0`. -/
def recZero : ProgressRecord := { id := 1, current := some 1, max := some 0, done := some false }

/-- A catalog entry matching `recZero`. -/
def achZero : Achievement :=
  { gw2_id := 1, name := "Beta", description := "", requirement := "", category_name := "Slayer",
    group_name := "", flags := [], is_legendary := false, community_priority := false }

/-- A not-done record whose JSON object lacks the `max` field. -/
def recNoMax : ProgressRecord := { id := 7, current := some 5, max := none, done := some false }

/-- A catalog entry matching `recNoMax`. -/
def achNoMax : Achievement :=
  { gw2_id := 7, name := "Gamma", description := "", requirement := "", category_name := "Slayer",
    group_name := "", flags := [], is_legendary := false, community_priority := false }

end GW2

namespace GW2

/-! ### Helper lemmas about the affinity map -/

lemma lookupD_bump (m : List (String × Nat)) (k c : String) :
    lookupD (bump m k) c 0 = lookupD m c 0 + if k = c then 1 else 0 := by
  induction m with
  | nil =>
    by_cases h : k = c <;> simp [bump, lookupD, h]
  | cons p rest ih =>
    obtain ⟨k', v⟩ := p
    by_cases h1 : k' = k
    · subst h1
      by_cases h2 : k' = c <;> simp [bump, lookupD, h2]
    · by_cases h2 : k' = c
      · have h3 : ¬c = k := fun hh => h1 (h2.trans hh)
        have h4 : ¬k = c := fun hh => h3 hh.symm
        simp [bump, lookupD, h1, h2, h3, h4]
      · simp [bump, lookupD, h1, h2, ih]

lemma mem_keys_bump (m : List (String × Nat)) (k c : String) :
    c ∈ (bump m k).map Prod.fst ↔ c ∈ m.map Prod.fst ∨ c = k := by
  induction m with
  | nil => simp [bump, eq_comm]
  | cons p rest ih =>
    obtain ⟨k', v⟩ := p
    by_cases h1 : k' = k
    · subst h1; simp [bump]
      tauto
    · simp [bump, h1, ih]
      tauto

lemma lookupD_foldl_bump (c : String) :
    ∀ (l : List Achievement) (m : List (String × Nat)),
      lookupD (l.foldl (fun m a => bump m a.category_name) m) c 0 =
        lookupD m c 0 + l.countP (fun a => a.category_name == c) := by
  intro l
  induction l with
  | nil => intro m; simp
  | cons a rest ih =>
    intro m
    rw [List.foldl_cons, ih, lookupD_bump, List.countP_cons]
    by_cases h : a.category_name = c <;> simp [h] <;> omega

lemma mem_keys_foldl_bump (c : String) :
    ∀ (l : List Achievement) (m : List (String × Nat)),
      (c ∈ (l.foldl (fun m a => bump m a.category_name) m).map Prod.fst ↔
        c ∈ m.map Prod.fst ∨ ∃ a ∈ l, a.category_name = c) := by
  intro l
  induction l with
  | nil => intro m; simp
  | cons a rest ih =>
    intro m
    rw [List.foldl_cons, ih, mem_keys_bump]
    constructor
    · rintro (⟨h | h⟩ | ⟨x, hx, h⟩)
      · exact Or.inl h
      · exact Or.inr ⟨a, by simp, h.symm⟩
      · exact Or.inr ⟨x, by simp [hx], h⟩
    · rintro (h | ⟨x, hx, h⟩)
      · exact Or.inl (Or.inl h)
      · rcases List.mem_cons.mp hx with rfl | hx
        · exact Or.inl (Or.inr h.symm)
      
        · exact Or.inr ⟨x, hx, h⟩

end GW2

namespace GW2

/-! ### Helper lemmas about the bucketing loop -/

lemma nearlyStep_eq (nearly : Bool) (d : RecEntry) (b : Buckets) :
    nearlyStep nearly d b =
      { b with nearly_complete := b.nearly_complete ++ (if nearly then [d] else []) } := by
  cases nearly <;> simp [nearlyStep]

lemma chainStep_eq (a : Achievement) (d : RecEntry) (b : Buckets) :
    chainStep a d b =
      { b with
        legendary := b.legendary ++ (if legPred a then [d] else []),
        pvp := b.pvp ++ (if pvpPred a then [d] else []),
        story := b.story ++ (if storyPred a then [d] else []),
        exploration := b.exploration ++ (if explPred a then [d] else []) } := by
  cases hleg : a.is_legendary <;> by_cases hpvp : "Pvp" ∈ a.flags <;>
    cases hsto : hasSub a.group_name "Story" <;> cases hexp : hasSub a.category_name "Explorer" <;>
    simp [chainStep, legPred, pvpPred, storyPred, explPred, hleg, hpvp, hsto, hexp]

lemma nearlyPred_of_ratioCheck (inprog : Nat → Option ProgressRecord) (a : Achievement)
    (t : Bool) (hr : ratioCheck (inprog a.gw2_id) = .ok t) : nearlyPred inprog a = t := by
  simp [nearlyPred, hr]

lemma runBuckets_ok (aff : List (String × Nat)) (inprog : Nat → Option ProgressRecord)
    (l : List Achievement) : ∀ (b b' : Buckets),
    runBuckets aff inprog b l = .ok b' →
    b' = { nearly_complete :=
             b.nearly_complete ++ (l.filter (nearlyPred inprog)).map (proj inprog),
           legendary := b.legendary ++ (l.filter legPred).map (proj inprog),
           pvp := b.pvp ++ (l.filter pvpPred).map (proj inprog),
           story := b.story ++ (l.filter storyPred).map (proj inprog),
           exploration := b.exploration ++ (l.filter explPred).map (proj inprog) } := by
  induction l with
  | nil =>
    intro b b' h
    rw [runBuckets] at h
    injection h with h
    subst h
    simp
  | cons a rest ih =>
    intro b b' h
    rw [runBuckets] at h
    cases hs : stepEntry aff inprog b a with
    | error e => rw [hs] at h; exact absurd h (by simp)
    | ok b1 =>
      rw [hs] at h
      have hb' := ih _ _ h
      rw [stepEntry] at hs
      cases hr : ratioCheck (inprog a.gw2_id) with
      | error e => rw [hr] at hs; exact absurd hs (by simp)
      | ok nearly =>
        rw [hr] at hs
        injection hs with hs
        have hnp := nearlyPred_of_ratioCheck inprog a nearly hr
        subst hb'
        rw [← hs, chainStep_eq, nearlyStep_eq]
        simp only [List.filter_cons, hnp, proj]
        refine Buckets.mk.injEq .. ▸ ?_
        constructor
        · cases nearly <;> simp [List.map_cons, proj]
        constructor
        · by_cases hp : legPred a = true <;> simp [hp, proj]
        constructor
        · by_cases hp : pvpPred a = true <;> simp [hp, proj]
        constructor
        · by_cases hp : storyPred a = true <;> simp [hp, proj]
        · by_cases hp : explPred a = true <;> simp [hp, proj]

end GW2

namespace GW2

/-! ### Characterizations of the progress lookup and the ratio check -/

lemma inProgress_some (user : List ProgressRecord) (id : Nat) (r : ProgressRecord)
    (h : inProgress user id = some r) : r.id = id ∧ isDone r = false := by
  unfold inProgress at h
  constructor
  · have hp := List.find?_some h
    simpa using hp
  · have hm := List.mem_of_find?_eq_some h
    rw [List.mem_reverse] at hm
    have := (List.mem_filter.mp hm).2
    simpa using this

lemma mkRat_gt_iff (n d : Nat) :
    mkRat (n : Int) d > mkRat 7 10 ↔ (n : ℚ) / (d : ℚ) > 7 / 10 := by
  rw [Rat.mkRat_eq_div, Rat.mkRat_eq_div]
  norm_num

lemma ratioCheck_eq_true_iff (po : Option ProgressRecord) :
    ratioCheck po = .ok true ↔
      ∃ p, po = some p ∧ ratioDen p ≠ 0 ∧
        (ratioNum p : ℚ) / (ratioDen p : ℚ) > 7 / 10 := by
  cases po with
  | none => simp [ratioCheck]
  | some p =>
    by_cases hd : ratioDen p = 0
    · simp [ratioCheck, hd]
    · simp [ratioCheck, hd, mkRat_gt_iff]

lemma ratioCheck_ne_true_of_eq (p : ProgressRecord)
    (h : (ratioNum p : ℚ) / (ratioDen p : ℚ) = 7 / 10) :
    ratioCheck (some p) ≠ .ok true := by
  intro hc
  rw [ratioCheck_eq_true_iff] at hc
  obtain ⟨q, hq, hd, hgt⟩ := hc
  cases hq
  rw [h] at hgt
  exact lt_irrefl _ hgt

lemma nearlyPred_eq_true_iff (inprog : Nat → Option ProgressRecord) (a : Achievement) :
    nearlyPred inprog a = true ↔ ratioCheck (inprog a.gw2_id) = .ok true := by
  unfold nearlyPred
  cases h : ratioCheck (inprog a.gw2_id) with
  | error e => simp
  | ok t => cases t <;> simp

lemma view_ok_inv (k : String) (hk : ¬k = "") (user : List ProgressRecord)
    (catalog : List Achievement) (b : Buckets)
    (h : recommendationView (some k) (.ok user) catalog = .ok b) :
    runBuckets (affinityMap catalog (completedIds user)) (inProgress user)
      emptyBuckets (potential catalog (completedIds user)) = .ok b := by
  unfold recommendationView at h
  rw [if_neg (by simpa using hk)] at h
  have h2 : viewCore user catalog = .ok b := h
  unfold viewCore at h2
  cases hr : runBuckets (affinityMap catalog (completedIds user)) (inProgress user)
      emptyBuckets (potential catalog (completedIds user)) with
  | error e => rw [hr] at h2; exact absurd h2 (by simp)
  | ok b2 => rw [hr] at h2; injection h2 with h2; rw [h2]

end GW2

namespace GW2

/-! ### The claims -/

/-- C4: for every catalog entry, the score with `communityPriority = true` is
exactly 10 more than the score of the otherwise-identical entry with
`communityPriority = false`; the base score is the affinity map's value at the
entry's `categoryName`, defaulting to 0 when the category is absent. -/
theorem community_priority_bonus (aff : List (String × Nat)) (a : Achievement) :
    score aff { a with community_priority := true } =
      score aff { a with community_priority := false } + 10 ∧
    score aff { a with community_priority := false } = lookupD aff a.category_name 0 ∧
    score aff a = lookupD aff a.category_name 0 + (if a.community_priority then 10 else 0) := by
  refine ⟨by simp [score], by simp [score], ?_⟩
  cases hcp : a.community_priority <;> simp [score, hcp]

/-- C7: with no API key (or a falsy empty-string key) the view answers the
400 client error at once, and its result does not depend on the progress
fetch outcome nor on the catalog — no network call or catalog access can
influence it. -/
theorem missing_credential (api_key : Option String)
    (h : api_key = none ∨ api_key = some "")
    (fetch fetch' : Except Unit (List ProgressRecord))
    (catalog catalog' : List Achievement) :
    recommendationView api_key fetch catalog = .badRequest "API Key required" ∧
    recommendationView api_key fetch catalog = recommendationView api_key fetch' catalog' := by
  rcases h with rfl | rfl <;> simp [recommendationView]

theorem missing_credential_witness :
    recommendationView none (.error ()) [] = .badRequest "API Key required" :=
  (missing_credential none (Or.inl rfl) (.error ()) (.ok []) [] []).1

/-- C8: a genuine not-done progress record with an explicit `max = 0` makes
the `current / max` ratio check raise `ZeroDivisionError`, so the request
crashes instead of producing a recommendation result: the division is not
guarded against a zero denominator. -/
theorem max_zero_division_crash :
    isDone recZero = false ∧ recZero.max = some 0 ∧
    inProgress [recZero] achZero.gw2_id = some recZero ∧
    ratioCheck (some recZero) = .error () ∧
    recommendationView (some "key") (.ok [recZero]) [achZero] = .serverError := by
  refine ⟨rfl, rfl, by decide, by decide, by decide⟩

/-- C10 counterexample: the claim asserts that neither of the two
found-record defaults for a missing `max` equals the documented
absent-record default (`(achData a none).max = 1`); but the ratio-check
default `ratioDen` is exactly 1, so the conjunction is false at
`achNoMax` / `recNoMax`. -/
theorem found_record_defaults_cex :
    ¬((achData achNoMax (some recNoMax)).max = 0 ∧ ratioDen recNoMax = 1 ∧
      (achData achNoMax (some recNoMax)).max ≠ (achData achNoMax none).max ∧
      ratioDen recNoMax ≠ (achData achNoMax none).max) := by decide

/-- C10 (amended): for a found not-done record lacking the `max` field, the
output projection uses `max = 0` while the ratio check uses denominator 1;
the two defaults are mutually inconsistent, the projection default differs
from the documented absent-record default of 1, and the ratio-check default
coincides with that absent-record default. -/
theorem found_record_defaults (a : Achievement) (r : ProgressRecord) (hm : r.max = none) :
    (achData a (some r)).max = 0 ∧ ratioDen r = 1 ∧ (achData a none).max = 1 ∧
    (achData a (some r)).max ≠ (achData a none).max ∧
    ratioDen r = (achData a none).max := by
  simp [achData, ratioDen, hm]

theorem found_record_defaults_witness :
    (achData achNoMax (some recNoMax)).max = 0 ∧ ratioDen recNoMax = 1 ∧
    (achData achNoMax none).max = 1 ∧
    (achData achNoMax (some recNoMax)).max ≠ (achData achNoMax none).max ∧
    ratioDen recNoMax = (achData achNoMax none).max :=
  found_record_defaults achNoMax recNoMax rfl

end GW2

namespace GW2

/-- C3: the affinity map is exactly the per-category count of catalog entries
whose `externalId` is in the done-id set; categories with zero completions
are absent from the map; an empty completed set yields the empty map and a
zero affinity contribution for every entry. -/
theorem affinity_map_counts (catalog : List Achievement) (user : List ProgressRecord)
    (c : String) :
    lookupD (affinityMap catalog (completedIds user)) c 0 =
      catalog.countP
        (fun a => a.category_name == c && (completedIds user).contains a.gw2_id) ∧
    (c ∉ (affinityMap catalog (completedIds user)).map Prod.fst ↔
      catalog.countP
        (fun a => a.category_name == c && (completedIds user).contains a.gw2_id) = 0) ∧
    (completedIds user = [] →
      affinityMap catalog (completedIds user) = [] ∧
      ∀ a : Achievement, lookupD (affinityMap catalog (completedIds user)) a.category_name 0 = 0) := by
  refine ⟨?_, ?_, ?_⟩
  · unfold affinityMap
    rw [lookupD_foldl_bump]
    simp only [lookupD, Nat.zero_add, history, List.countP_filter]
  · unfold affinityMap
    have h := mem_keys_foldl_bump c (history catalog (completedIds user)) []
    rw [h]
    simp only [List.map_nil, List.not_mem_nil, false_or]
    rw [List.countP_eq_zero]
    unfold history
    constructor
    · intro hno a ha hc
      rw [Bool.and_eq_true] at hc
      exact hno ⟨a, List.mem_filter.mpr ⟨ha, hc.2⟩, by simpa using hc.1⟩
    · rintro hall ⟨a, haf, hcat⟩
      obtain ⟨ha, hcont⟩ := List.mem_filter.mp haf
      have hmem : a.gw2_id ∈ completedIds user := by simpa using hcont
      exact hall a ha (by simp [hcat, hmem])
  · intro h
    rw [h]
    have hmap : affinityMap catalog [] = [] := by
      unfold affinityMap history
      simp
    exact ⟨hmap, fun a => by rw [hmap]; rfl⟩

theorem affinity_map_counts_witness :
    affinityMap [achPvp] (completedIds [recPvp]) = [] ∧
    ∀ a : Achievement,
      lookupD (affinityMap [achPvp] (completedIds [recPvp])) a.category_name 0 = 0 :=
  (affinity_map_counts [achPvp] [recPvp] "Slayer").2.2 (by decide)

/-- C5: the output entry's `progress`/`max` come from the not-done progress
record whose id equals the entry's `externalId`: when such a record is found
its `current`/`max` are used, and when none exists the defaults
`progress = 0`, `max = 1` are used. -/
theorem progress_resolution (user : List ProgressRecord) (a : Achievement) :
    (∀ r, inProgress user a.gw2_id = some r →
      r.id = a.gw2_id ∧ isDone r = false ∧
      ∀ c m, r.current = some c → r.max = some m →
        proj (inProgress user) a =
          { id := a.gw2_id, name := a.name, requirement := a.requirement,
            category := a.category_name, progress := c, max := m }) ∧
    (inProgress user a.gw2_id = none →
      proj (inProgress user) a =
        { id := a.gw2_id, name := a.name, requirement := a.requirement,
          category := a.category_name, progress := 0, max := 1 }) := by
  constructor
  · intro r hr
    obtain ⟨hid, hdone⟩ := inProgress_some user a.gw2_id r hr
    refine ⟨hid, hdone, ?_⟩
    intro c m hc hm
    simp [proj, achData, hr, hc, hm]
  · intro hn
    simp [proj, achData, hn]

theorem progress_resolution_witness :
    proj (inProgress [recPvp]) achPvp = entryPvp :=
  ((progress_resolution [recPvp] achPvp).1 recPvp (by decide)).2.2 8 10 rfl rfl

end GW2

namespace GW2

/-- C1: among the scanned (non-completed) entries, an entry is placed in
`nearly_complete` iff a not-done progress record with its id exists whose
`current / max` ratio is strictly greater than 0.7; a ratio of exactly 0.7
is excluded, and an entry with no progress record is never placed there. -/
theorem nearly_complete_iff (user : List ProgressRecord) (aff : List (String × Nat))
    (l : List Achievement) (b' : Buckets)
    (hrun : runBuckets aff (inProgress user) emptyBuckets l = .ok b') :
    b'.nearly_complete =
      (l.filter (nearlyPred (inProgress user))).map (proj (inProgress user)) ∧
    (∀ a : Achievement,
      nearlyPred (inProgress user) a = true ↔
        ∃ r, inProgress user a.gw2_id = some r ∧ r.id = a.gw2_id ∧ isDone r = false ∧
          ratioDen r ≠ 0 ∧ (ratioNum r : ℚ) / (ratioDen r : ℚ) > 7 / 10) ∧
    (∀ a : Achievement, ∀ r, inProgress user a.gw2_id = some r →
        (ratioNum r : ℚ) / (ratioDen r : ℚ) = 7 / 10 →
        nearlyPred (inProgress user) a = false) ∧
    (∀ a : Achievement, inProgress user a.gw2_id = none →
        nearlyPred (inProgress user) a = false) := by
  refine ⟨?_, ?_, ?_, ?_⟩
  · have hb := runBuckets_ok aff (inProgress user) l emptyBuckets b' hrun
    rw [hb]
    simp [emptyBuckets]
  · intro a
    rw [nearlyPred_eq_true_iff, ratioCheck_eq_true_iff]
    constructor
    · rintro ⟨p, hp, hd, hgt⟩
      obtain ⟨hid, hdone⟩ := inProgress_some user a.gw2_id p hp
      exact ⟨p, hp, hid, hdone, hd, hgt⟩
    · rintro ⟨p, hp, h1, h2, hd, hgt⟩
      exact ⟨p, hp, hd, hgt⟩
  · intro a r hr heq
    cases hv : nearlyPred (inProgress user) a
    · rfl
    · exfalso
      rw [nearlyPred_eq_true_iff] at hv
      rw [hr] at hv
      exact ratioCheck_ne_true_of_eq r heq hv
  · intro a hn
    have hc : ratioCheck (inProgress user a.gw2_id) = .ok false := by rw [hn]; rfl
    exact nearlyPred_of_ratioCheck (inProgress user) a false hc

theorem nearly_complete_iff_witness :
    bucketsPvp.nearly_complete =
      ([achPvp].filter (nearlyPred (inProgress [recPvp]))).map (proj (inProgress [recPvp])) :=
  (nearly_complete_iff [recPvp] [] [achPvp] bucketsPvp (by decide)).1

/-- C2: `legendary`/`pvp`/`story`/`exploration` form an else-if chain, so each
scanned entry is placed in at most one of them, a legendary entry only ever
in `legendary`; `nearly_complete` is additive, so an entry can be in
`nearly_complete` plus exactly one of the other four. -/
theorem chain_buckets_exclusive (aff : List (String × Nat))
    (inprog : Nat → Option ProgressRecord) (l : List Achievement) (b' : Buckets)
    (hrun : runBuckets aff inprog emptyBuckets l = .ok b') :
    (∀ a : Achievement,
      (if legPred a then 1 else 0) + (if pvpPred a then 1 else 0) +
        (if storyPred a then 1 else 0) + (if explPred a then 1 else 0) ≤ 1) ∧
    (∀ a : Achievement, legPred a = true →
      pvpPred a = false ∧ storyPred a = false ∧ explPred a = false) ∧
    b'.legendary = (l.filter legPred).map (proj inprog) ∧
    b'.pvp = (l.filter pvpPred).map (proj inprog) ∧
    b'.story = (l.filter storyPred).map (proj inprog) ∧
    b'.exploration = (l.filter explPred).map (proj inprog) ∧
    b'.nearly_complete = (l.filter (nearlyPred inprog)).map (proj inprog) ∧
    (∃ (aff2 : List (String × Nat)) (user2 : List ProgressRecord) (a2 : Achievement)
        (b2 : Buckets),
      runBuckets aff2 (inProgress user2) emptyBuckets [a2] = .ok b2 ∧
      b2.nearly_complete = [proj (inProgress user2) a2] ∧
      b2.pvp = [proj (inProgress user2) a2] ∧
      b2.legendary = [] ∧ b2.story = [] ∧ b2.exploration = []) := by
  have hb := runBuckets_ok aff inprog l emptyBuckets b' hrun
  refine ⟨?_, ?_, ?_, ?_, ?_, ?_, ?_, ?_⟩
  · intro a
    simp only [legPred, pvpPred, storyPred, explPred]
    rcases Bool.eq_false_or_eq_true a.is_legendary with h1 | h1 <;>
      by_cases h2 : "Pvp" ∈ a.flags <;>
      rcases Bool.eq_false_or_eq_true (hasSub a.group_name "Story") with h3 | h3 <;>
      rcases Bool.eq_false_or_eq_true (hasSub a.category_name "Explorer") with h4 | h4 <;>
      simp [h1, h2, h3, h4]
  · intro a hleg
    simp only [legPred] at hleg
    simp [pvpPred, storyPred, explPred, hleg]
  · rw [hb]; simp [emptyBuckets]
  · rw [hb]; simp [emptyBuckets]
  · rw [hb]; simp [emptyBuckets]
  · rw [hb]; simp [emptyBuckets]
  · rw [hb]; simp [emptyBuckets]
  · exact ⟨[], [recPvp], achPvp, bucketsPvp, by decide, by decide, by decide, rfl, rfl, rfl⟩

theorem chain_buckets_exclusive_witness :
    bucketsPvp.pvp = ([achPvp].filter pvpPred).map (proj (inProgress [recPvp])) :=
  (chain_buckets_exclusive [] (inProgress [recPvp]) [achPvp] bucketsPvp (by decide)).2.2.2.1

/-- C6: the scan runs only over catalog entries whose id is not in the
completed-id set, so no bucket of a successful response holds an entry with
a completed id. -/
theorem completed_never_bucketed (k : String) (hk : ¬k = "")
    (user : List ProgressRecord) (catalog : List Achievement) (b : Buckets)
    (hok : recommendationView (some k) (.ok user) catalog = .ok b) :
    ∀ e : RecEntry,
      (e ∈ b.nearly_complete ∨ e ∈ b.legendary ∨ e ∈ b.pvp ∨ e ∈ b.story ∨
        e ∈ b.exploration) →
      (completedIds user).contains e.id = false := by
  have hrun := view_ok_inv k hk user catalog b hok
  have hb := runBuckets_ok _ _ _ _ _ hrun
  intro e he
  have hex : ∃ a, a ∈ potential catalog (completedIds user) ∧
      proj (inProgress user) a = e := by
    rw [hb] at he
    simp only [emptyBuckets, List.nil_append] at he
    rcases he with h | h | h | h | h <;>
    · obtain ⟨a, haf, hpe⟩ := List.mem_map.mp h
      exact ⟨a, List.mem_of_mem_filter haf, hpe⟩
  obtain ⟨a, hap, hpe⟩ := hex
  unfold potential at hap
  have hcont := (List.mem_filter.mp hap).2
  have hid : e.id = a.gw2_id := by rw [← hpe]; rfl
  rw [hid]
  simpa using hcont

theorem completed_never_bucketed_witness :
    (completedIds [recDone, recPvp]).contains entryPvp.id = false :=
  completed_never_bucketed "k" (by decide) [recDone, recPvp] [achDone, achPvp] bucketsPvp
    (by decide) entryPvp (Or.inl (by decide))

end GW2

namespace GW2

lemma sorted_names_of_sorted (l : List Achievement) (p : Achievement → Bool)
    (inprog : Nat → Option ProgressRecord)
    (hl : l.Pairwise (fun x y => x.name ≤ y.name)) :
    (((l.filter p).map (proj inprog)).map (fun e => e.name)).Pairwise
      (fun x y => x ≤ y) := by
  rw [List.map_map, List.pairwise_map]
  exact (hl.filter p).imp (fun hxy => hxy)

/-- C9: each bucket of a successful run is the in-order restriction of the
scan (`potential`, i.e. the catalog minus the completed set) to the entries
satisfying that bucket's predicate — no score-based reordering — so a
name-sorted catalog yields name-sorted buckets. -/
theorem bucket_order_catalog (user : List ProgressRecord) (catalog : List Achievement)
    (b' : Buckets)
    (hrun : runBuckets (affinityMap catalog (completedIds user)) (inProgress user)
      emptyBuckets (potential catalog (completedIds user)) = .ok b')
    (hsorted : catalog.Pairwise (fun x y => x.name ≤ y.name)) :
    (b'.nearly_complete = ((potential catalog (completedIds user)).filter
        (nearlyPred (inProgress user))).map (proj (inProgress user)) ∧
     b'.legendary = ((potential catalog (completedIds user)).filter legPred).map
        (proj (inProgress user)) ∧
     b'.pvp = ((potential catalog (completedIds user)).filter pvpPred).map
        (proj (inProgress user)) ∧
     b'.story = ((potential catalog (completedIds user)).filter storyPred).map
        (proj (inProgress user)) ∧
     b'.exploration = ((potential catalog (completedIds user)).filter explPred).map
        (proj (inProgress user))) ∧
    ((b'.nearly_complete.map (fun e => e.name)).Pairwise (fun x y => x ≤ y) ∧
     (b'.legendary.map (fun e => e.name)).Pairwise (fun x y => x ≤ y) ∧
     (b'.pvp.map (fun e => e.name)).Pairwise (fun x y => x ≤ y) ∧
     (b'.story.map (fun e => e.name)).Pairwise (fun x y => x ≤ y) ∧
     (b'.exploration.map (fun e => e.name)).Pairwise (fun x y => x ≤ y)) := by
  have hb := runBuckets_ok _ _ _ _ _ hrun
  have hpot : (potential catalog (completedIds user)).Pairwise
      (fun x y => x.name ≤ y.name) := by
    unfold potential
    exact hsorted.filter _
  constructor
  · rw [hb]
    exact ⟨by simp [emptyBuckets], by simp [emptyBuckets], by simp [emptyBuckets],
      by simp [emptyBuckets], by simp [emptyBuckets]⟩
  · rw [hb]
    refine ⟨?_, ?_, ?_, ?_, ?_⟩ <;>
    · simp only [emptyBuckets, List.nil_append]
      exact sorted_names_of_sorted _ _ _ hpot

theorem bucket_order_catalog_witness :
    (bucketsPvp.pvp.map (fun e => e.name)).Pairwise (fun x y => x ≤ y) :=
  (bucket_order_catalog [recDone, recPvp] [achDone, achPvp] bucketsPvp
    (by decide)
    (by
      simp only [List.pairwise_cons, List.mem_singleton, List.not_mem_nil,
        false_implies, implies_true, and_true, List.Pairwise.nil, forall_eq]
      show achDone.name ≤ achPvp.name
      rw [String.le_iff_toList_le]
      decide)).2.2.2.1

end GW2
